import Mathlib

/-!
# Verification of the halo2-zk-email constraint-composition core

Shallow embedding of the witness-level computations and emitted constraints of
`src/regex_sha2_base64.rs` and `src/sha2_circuit.rs`, together with the
standard padded base64 alphabet used by those files.  Field-valued wires are
modelled parametrically over a commutative ring `F`; byte-valued wires are
modelled as `Nat`.  Constraint emission is modelled as a list of pairs of
values that the circuit asserts equal; a witness satisfies the emitted
constraints exactly when every pair is an equality.
-/

namespace ZkEmail

/-! ## Standard base64 alphabet (RFC 4648), as used via the `base64` crate's
`general_purpose::STANDARD` engine in `regex_sha2_base64.rs`. -/

/-- ASCII code of the standard-alphabet base64 character for a 6-bit index:
`A–Z` for 0–25, `a–z` for 26–51, `0–9` for 52–61, `+` for 62, `/` for 63. -/
def b64chr (k : Nat) : Nat :=
  if k < 26 then 65 + k
  else if k < 52 then 71 + k
  else if k < 62 then k - 4
  else if k = 62 then 43
  else 47

/-- 6-bit index of a standard-alphabet base64 character (ASCII code). -/
def b64idx (c : Nat) : Nat :=
  if 65 ≤ c ∧ c ≤ 90 then c - 65
  else if 97 ≤ c ∧ c ≤ 122 then c - 71
  else if 48 ≤ c ∧ c ≤ 57 then c + 4
  else if c = 43 then 62
  else if c = 47 then 63
  else 0

/-- Standard padded base64 encoding of a byte list: three bytes become four
alphabet characters; a two-byte tail becomes three characters and one `=`
(ASCII 61); a one-byte tail becomes two characters and two `=`. -/
def base64Encode : List Nat → List Nat
  | a :: b :: c :: rest =>
      b64chr (a / 4) :: b64chr (a % 4 * 16 + b / 16) ::
        b64chr (b % 16 * 4 + c / 64) :: b64chr (c % 64) :: base64Encode rest
  | [a, b] => [b64chr (a / 4), b64chr (a % 4 * 16 + b / 16), b64chr (b % 16 * 4), 61]
  | [a] => [b64chr (a / 4), b64chr (a % 4 * 16), 61, 61]
  | [] => []

/-- Standard padded base64 decoding: four characters become three bytes, the
padding character `=` (ASCII 61) in position three or four of the final block
signalling a one- or two-byte tail. -/
def base64Decode : List Nat → List Nat
  | c1 :: c2 :: c3 :: c4 :: rest =>
      if c3 = 61 then [b64idx c1 * 4 + b64idx c2 / 16]
      else if c4 = 61 then
        [b64idx c1 * 4 + b64idx c2 / 16, b64idx c2 % 16 * 16 + b64idx c3 / 4]
      else
        (b64idx c1 * 4 + b64idx c2 / 16) :: (b64idx c2 % 16 * 16 + b64idx c3 / 4) ::
          (b64idx c3 % 4 * 64 + b64idx c4) :: base64Decode rest
  | _ => []

/-! ## Wire-level data model

`AssignedAllString` mirrors the output of the pattern-match sub-circuit
(`halo2_regex::AssignedAllString`): per-position enabled flags and character
wires.  `AssignedHashResult` mirrors the output of the hash sub-circuit
(`halo2_dynamic_sha256::AssignedHashResult`): per-position input-byte wires, a
real-input-length wire and digest output-byte wires. -/

structure AssignedAllString (F : Type) where
  enable_flags : List F
  characters : List F

structure AssignedHashResult (F : Type) where
  input_bytes : List F
  input_len : F
  output_bytes : List F

/-- A list of value pairs the circuit asserts equal (each pair is one
`assert_equal` / `constrain_equal` call); the witness satisfies the emitted
constraints exactly when every pair is an equality. -/
def constraintsHold {F : Type} (cs : List (F × F)) : Prop :=
  ∀ p ∈ cs, p.1 = p.2

instance {F : Type} [DecidableEq F] (cs : List (F × F)) :
    Decidable (constraintsHold cs) := by
  unfold constraintsHold
  infer_instance

/-! ## `RegexSha2Base64Config::match_hash_and_base64` (`regex_sha2_base64.rs`)

The constraint-binding loop of lines 84–114: for `idx` in
`0..max_input_size` it multiplies the enabled flag with the pattern-match
character and with the hash input byte, asserts the two products equal, and
accumulates the flag into a running sum, finally asserting the sum equal to
the hash sub-circuit's `input_len`. -/

def bindingStep {F : Type} [CommRing F] (all : AssignedAllString F)
    (hres : AssignedHashResult F) (acc : F × List (F × F)) (idx : Nat) :
    F × List (F × F) :=
  let flag := all.enable_flags.getD idx 0
  let regex_input := flag * all.characters.getD idx 0
  let sha2_input := flag * hres.input_bytes.getD idx 0
  (acc.1 + flag, acc.2 ++ [(regex_input, sha2_input)])

/-- The equality constraints emitted by the binding loop of
`match_hash_and_base64`: one masked-product equality per position and the
final flag-sum-equals-length equality. -/
def bindingConstraints {F : Type} [CommRing F] (max_input_size : Nat)
    (all : AssignedAllString F) (hres : AssignedHashResult F) : List (F × F) :=
  let r := (List.range max_input_size).foldl (bindingStep all hres) (0, [])
  r.2 ++ [(r.1, hres.input_len)]

/-- Witness preparation for the base64 link (lines 116–123): the cleartext
SHA-256 digest of the input is computed (once, outside the constraint
system), base64-encoded into a buffer of `len * 4 / 3 + 4` zero bytes via
`encode_slice`, and the buffer is handed to the base64 sub-circuit.
`sha256` is the reference hash function of the external `sha2` crate, kept
abstract. -/
def hashBase64Witness (sha256 : List Nat → List Nat) (input : List Nat) :
    List Nat :=
  let actual_hash := sha256 input
  let encoded := base64Encode actual_hash
  encoded ++ List.replicate (actual_hash.length * 4 / 3 + 4 - encoded.length) 0

/-- The `constrain_equal` calls of lines 128–135: the hash sub-circuit's
digest output bytes are zipped with the base64 sub-circuit's decoded bytes
and each pair is constrained equal. -/
def decodedDigestConstraints {F : Type} (output_bytes decoded : List F) :
    List (F × F) :=
  output_bytes.zip decoded

/-- The per-pattern extraction loop of lines 68–80: each `SubstrDef` is
zipped with its positions array and handed to the pattern-match
sub-circuit's `match_substr` (kept abstract as `matchSubstr`). -/
def assignedSubstrs {D R : Type} (matchSubstr : D → List Nat → R)
    (substr_defs : List D) (substr_positions_array : List (List Nat)) :
    List R :=
  (substr_defs.zip substr_positions_array).map fun p => matchSubstr p.1 p.2

/-! ## `RegexSha2Base64Config::load` (`regex_sha2_base64.rs`, lines 151–162)

The three table loads are sequenced with `?`: automaton
transition/acceptance tables first, then the range-check lookup table, then
the base64 alphabet table.  Each loader is modelled as a state transformer
that may fail, mirroring `Result<(), Error>` with the layouter state threaded
explicitly. -/

def loadConfig {σ ε : Type} (loadRegexTable loadRangeTable loadBase64Table :
    σ → Except ε σ) (s : σ) : Except ε σ := do
  let s1 ← loadRegexTable s
  let s2 ← loadRangeTable s1
  loadBase64Table s2

/-! ## The `impl_sha2_circuit!` circuit (`sha2_circuit.rs`)

The macro-generated circuit holds an input byte vector and a blinding field
element `sign_rand`.  The sole instantiation in the source is
`impl_sha2_circuit!(DummySha256Circuit, 128, …, 0)`: capacity 128 bytes,
skip-prefix 0. -/

structure Sha2Circuit (F : Type) where
  input : List Nat
  sign_rand : F

/-- `Circuit::without_witnesses` (lines 40–45): a same-shape circuit with a
zero input vector of the original length and zero blinding value. -/
def withoutWitnesses {F : Type} [CommRing F] (c : Sha2Circuit F) :
    Sha2Circuit F :=
  { input := List.replicate c.input.length 0, sign_rand := 0 }

/-- Modelled from the spec: the in-circuit digest operation
`Sha256DynamicConfig::digest(ctx, input, Some(skip))` of the external
`halo2_dynamic_sha256` crate is not part of this repository's sources.  Per
the spec, the skip-prefix parameter "excludes a caller-specified number of
leading bytes from the committed digest input region", the sub-circuit
exposes the real input length, and the "Digest equals the reference hash
function applied to exactly the first L bytes after skipping the prefix".
So the committed input-byte region holds the input bytes after the first
`skip`, zero-padded to the fixed capacity, `input_len` is the real input
length, and the output bytes are the reference hash of the bytes after the
skip.  Wire values are modelled at the byte level as `Nat`. -/
def sha2DigestSkip (sha256 : List Nat → List Nat) (max_bytes_size : Nat)
    (input : List Nat) (skip : Nat) : AssignedHashResult Nat :=
  { input_bytes :=
      input.drop skip ++
        List.replicate (max_bytes_size - (input.length - skip)) 0
    input_len := input.length
    output_bytes := sha256 (input.drop skip) }

/-- The reveal loop of `synthesize` (lines 92–109): `is_input_revealed`
starts at one, is forced to zero at the index equal to `expected_len`
(`is_equal` + `select`), and each input byte is multiplied by the updated
flag. -/
def revealLoop : List Nat → Nat → Nat → Nat → List Nat
  | [], _, _, _ => []
  | byte :: rest, expected_len, idx, revealed =>
      let revealed := if expected_len = idx then 0 else revealed
      byte * revealed :: revealLoop rest expected_len (idx + 1) revealed

def revealMask (bytes : List Nat) (expected_len : Nat) : List Nat :=
  revealLoop bytes expected_len 0 1

/-- The two cells `synthesize` (lines 86–119) constrains to the instance
column, in order: the commitment to the masked input bytes, then the
commitment to the digest output bytes, both under the blinding value
`sign_rand`.  `commit` abstracts `assigned_commit_wtns_bytes` /
`value_commit_wtns_bytes` of the `wtns_commit` module (modelled from the
spec as one commitment function of the blinding value and the byte values,
since that module is not among the sources);
`expected_len = input_len - skip` as in line 94. -/
def sha2SynthPublicCells {F : Type} (sha256 : List Nat → List Nat)
    (commit : F → List Nat → F) (max_bytes_size skip : Nat)
    (input : List Nat) (sign_rand : F) : List F :=
  let hres := sha2DigestSkip sha256 max_bytes_size input skip
  let hash_commit := commit sign_rand hres.output_bytes
  let expected_len := hres.input_len - skip
  let actual_input := revealMask hres.input_bytes expected_len
  let input_commit := commit sign_rand actual_input
  [input_commit, hash_commit]

/-- `CircuitExt::num_instance` (lines 125–127). -/
def numInstance : List Nat := [2]

/-- `CircuitExt::instances` (lines 129–135): out-of-circuit public inputs.
`padding_size = max_bytes_size - input.len()` is a `usize` subtraction that
panics (debug) or produces an unallocatable near-`2^64` vector length whose
allocation panics (release) when the input exceeds the capacity; both are
hard aborts, modelled as `none`. -/
def instancesFn {F : Type} (sha256 : List Nat → List Nat)
    (commit : F → List Nat → F) (max_bytes_size : Nat) (input : List Nat)
    (sign_rand : F) : Option (List (List F)) :=
  if input.length ≤ max_bytes_size then
    let padding_size := max_bytes_size - input.length
    let input_bytes := input ++ List.replicate padding_size 0
    let input_commit := commit sign_rand input_bytes
    let hash_commit := commit sign_rand (sha256 input)
    some [[input_commit, hash_commit]]
  else
    none

/-- Capacity of the sole instantiation `DummySha256Circuit` (line 146). -/
def dummyMaxBytesSize : Nat := 128

/-- Skip-prefix of the sole instantiation `DummySha256Circuit` (line 146). -/
def dummySkipPrefix : Nat := 0

/-! ## Base64 alphabet lemmas and the round trip -/

theorem b64idx_b64chr : ∀ k < 64, b64idx (b64chr k) = k := by decide

theorem b64chr_ne_pad : ∀ k < 64, b64chr k ≠ 61 := by decide

/-- Decoding inverts encoding on any byte list. -/
theorem base64Decode_base64Encode :
    ∀ (l : List Nat), (∀ x ∈ l, x < 256) → base64Decode (base64Encode l) = l
  | [], _ => rfl
  | [a], h => by
      have ha : a < 256 := h a (by simp)
      have h1 : a / 4 < 64 := by omega
      have h2 : a % 4 * 16 < 64 := by omega
      simp only [base64Encode, base64Decode, if_true, reduceIte]
      rw [b64idx_b64chr _ h1, b64idx_b64chr _ h2]
      simp only [List.cons.injEq, and_true]
      omega
  | [a, b], h => by
      have ha : a < 256 := h a (by simp)
      have hb : b < 256 := h b (by simp)
      have h1 : a / 4 < 64 := by omega
      have h2 : a % 4 * 16 + b / 16 < 64 := by omega
      have h3 : b % 16 * 4 < 64 := by omega
      simp only [base64Encode, base64Decode, if_true, reduceIte]
      rw [if_neg (b64chr_ne_pad _ h3)]
      rw [b64idx_b64chr _ h1, b64idx_b64chr _ h2, b64idx_b64chr _ h3]
      simp only [List.cons.injEq, and_true]
      omega
  | a :: b :: c :: rest, h => by
      have ha : a < 256 := h a (by simp)
      have hb : b < 256 := h b (by simp)
      have hc : c < 256 := h c (by simp)
      have h1 : a / 4 < 64 := by omega
      have h2 : a % 4 * 16 + b / 16 < 64 := by omega
      have h3 : b % 16 * 4 + c / 64 < 64 := by omega
      have h4 : c % 64 < 64 := by omega
      have ih := base64Decode_base64Encode rest (fun x hx => h x (by simp [hx]))
      simp only [base64Encode, base64Decode]
      rw [if_neg (b64chr_ne_pad _ h3), if_neg (b64chr_ne_pad _ h4)]
      rw [b64idx_b64chr _ h1, b64idx_b64chr _ h2, b64idx_b64chr _ h3, b64idx_b64chr _ h4]
      rw [ih]
      simp only [List.cons.injEq, and_true]
      refine ⟨by omega, by omega, by omega⟩

/-- Length of a padded base64 encoding: four characters per started
three-byte group. -/
theorem base64Encode_length :
    ∀ l : List Nat, (base64Encode l).length = (l.length + 2) / 3 * 4
  | [] => rfl
  | [_] => by simp [base64Encode]
  | [_, _] => by simp [base64Encode]
  | a :: b :: c :: rest => by
      have ih := base64Encode_length rest
      simp only [base64Encode, List.length_cons, ih]
      omega

/-! ## Constraint-list lemmas -/

theorem constraintsHold_append {F : Type} (l1 l2 : List (F × F)) :
    constraintsHold (l1 ++ l2) ↔ constraintsHold l1 ∧ constraintsHold l2 := by
  simp [constraintsHold, or_imp, forall_and]

theorem constraintsHold_singleton {F : Type} (q : F × F) :
    constraintsHold [q] ↔ q.1 = q.2 := by
  simp [constraintsHold]

theorem constraintsHold_mapRange {F : Type} (n : Nat) (f : Nat → F × F) :
    constraintsHold ((List.range n).map f) ↔ ∀ i < n, (f i).1 = (f i).2 := by
  simp [constraintsHold]

/-- Satisfying the pairwise zip constraints of two same-length lists is
exactly their equality as lists. -/
theorem constraintsHold_zip {F : Type} (l1 l2 : List F)
    (h : l1.length = l2.length) :
    constraintsHold (l1.zip l2) ↔ l1 = l2 := by
  constructor
  · intro hc
    apply List.ext_getElem h
    intro i h1 h2
    have hz : i < (l1.zip l2).length := by
      rw [List.length_zip]
      omega
    have hmem : (l1.zip l2).get ⟨i, hz⟩ ∈ l1.zip l2 := List.get_mem _ _ _
    have hpair := hc _ hmem
    rwa [List.get_eq_getElem, List.getElem_zip] at hpair
  · rintro rfl p hp
    obtain ⟨i, hi⟩ := List.mem_iff_get.mp hp
    rw [List.get_eq_getElem, List.getElem_zip] at hi
    rw [← hi]

/-- Unrolling the binding fold: the accumulator collects the flag sum and the
per-position masked-product pairs, in position order. -/
theorem bindingFold_eq {F : Type} [CommRing F] (all : AssignedAllString F)
    (hres : AssignedHashResult F) (l : List Nat) (a : F) (cs : List (F × F)) :
    l.foldl (bindingStep all hres) (a, cs) =
      (a + (l.map fun i => all.enable_flags.getD i 0).sum,
        cs ++ l.map fun i =>
          (all.enable_flags.getD i 0 * all.characters.getD i 0,
            all.enable_flags.getD i 0 * hres.input_bytes.getD i 0)) := by
  induction l generalizing a cs with
  | nil => simp
  | cons x xs ih =>
      simp only [List.foldl_cons, bindingStep, ih, List.map_cons, List.sum_cons]
      rw [Prod.mk.injEq]
      constructor
      · ring
      · simp

/-- The reveal loop with a zeroed flag zeroes every byte. -/
theorem revealLoop_zero :
    ∀ (bytes : List Nat) (e i : Nat),
      revealLoop bytes e i 0 = List.replicate bytes.length 0
  | [], _, _ => rfl
  | byte :: rest, e, i => by
      simp [revealLoop, revealLoop_zero rest e (i + 1), List.replicate_succ]

/-- The reveal loop with a live flag keeps the bytes before the expected
length and zeroes the rest. -/
theorem revealLoop_one :
    ∀ (bytes : List Nat) (e i : Nat), i ≤ e →
      revealLoop bytes e i 1 =
        bytes.take (e - i) ++ List.replicate (bytes.length - (e - i)) 0
  | [], _, _, _ => by simp [revealLoop]
  | byte :: rest, e, i, h => by
      by_cases hei : e = i
      · subst hei
        simp [revealLoop, revealLoop_zero, List.replicate_succ]
      · have h' : i + 1 ≤ e := by omega
        have ih := revealLoop_one rest e (i + 1) h'
        have hsplit : e - i = (e - (i + 1)) + 1 := by omega
        simp only [revealLoop, if_neg hei, mul_one, ih, hsplit,
          List.take_succ_cons, List.length_cons, List.cons_append,
          Nat.succ_sub_succ]

theorem revealMask_eq (bytes : List Nat) (e : Nat) :
    revealMask bytes e =
      bytes.take e ++ List.replicate (bytes.length - e) 0 := by
  simpa using revealLoop_one bytes e 0 (Nat.zero_le e)

/-! ## Claim theorems -/

/-- **C1**: in `match_hash_and_base64`, for every position `i` below
`max_input_size` the circuit constrains the masked products
`flag_i * character_i` and `flag_i * byte_i` equal, and constrains the sum
of all `flag_i` over the full capacity equal to the hash sub-circuit's
reported real input length: the emitted constraints are satisfied exactly
when all those equalities hold. -/
theorem binding_constraints_characterization {F : Type} [CommRing F]
    (max_input_size : Nat) (all : AssignedAllString F)
    (hres : AssignedHashResult F)
    ( _hflags : all.enable_flags.length = max_input_size)
    ( _hchars : all.characters.length = max_input_size)
    ( _hbytes : hres.input_bytes.length = max_input_size) :
    constraintsHold (bindingConstraints max_input_size all hres) ↔
      ((∀ i < max_input_size,
          all.enable_flags.getD i 0 * all.characters.getD i 0 =
            all.enable_flags.getD i 0 * hres.input_bytes.getD i 0) ∧
        ((List.range max_input_size).map
            fun i => all.enable_flags.getD i 0).sum = hres.input_len) := by
  simp only [bindingConstraints]
  rw [bindingFold_eq]
  simp only [zero_add, List.nil_append]
  rw [constraintsHold_append, constraintsHold_mapRange,
    constraintsHold_singleton]

/-- Concrete evaluation of the binding-constraint characterization: the
constraints of a satisfying assignment of capacity two hold. -/
theorem binding_constraints_characterization_witness :
    constraintsHold (bindingConstraints 2 ⟨[1, 1], [3, 4]⟩
      (⟨[3, 4], 2, []⟩ : AssignedHashResult Int)) :=
  (binding_constraints_characterization 2 ⟨[1, 1], [3, 4]⟩
    ⟨[3, 4], 2, []⟩ rfl rfl rfl).mpr (by decide)

/-- **C2**: in `match_hash_and_base64` the cleartext digest is used only to
derive the base64 witness buffer (`encode_slice` output followed by the
untouched zero bytes of the buffer), and the decoded bytes are constrained
cell-equal to the hash sub-circuit's output bytes: with both vectors of
length 32, the emitted `constrain_equal` pairs are satisfied exactly when
the decoded vector equals the digest output vector. -/
theorem hash_base64_link {F : Type} (sha256 : List Nat → List Nat)
    (input : List Nat) (output_bytes decoded : List F)
    (hsha : (sha256 input).length = 32)
    (hout : output_bytes.length = 32) (hdec : decoded.length = 32) :
    hashBase64Witness sha256 input =
      base64Encode (sha256 input) ++ List.replicate 2 0 ∧
    (constraintsHold (decodedDigestConstraints output_bytes decoded) ↔
      output_bytes = decoded) := by
  constructor
  · simp only [hashBase64Witness, base64Encode_length, hsha]
  · exact constraintsHold_zip _ _ (by rw [hout, hdec])

/-- Concrete evaluation of the base64 link at an all-zero digest and equal
32-byte vectors. -/
theorem hash_base64_link_witness :
    hashBase64Witness (fun _ => List.replicate 32 0) [] =
      base64Encode ((fun _ : List Nat => List.replicate 32 0) []) ++
        List.replicate 2 0 ∧
    (constraintsHold (decodedDigestConstraints (List.replicate 32 (0 : Int))
        (List.replicate 32 0)) ↔
      List.replicate 32 (0 : Int) = List.replicate 32 0) :=
  hash_base64_link (fun _ => List.replicate 32 0) [] (List.replicate 32 0)
    (List.replicate 32 0) (by decide) (by decide) (by decide)

/-- **C3**: decoding the standard base64 textual encoding of any 32-byte
digest reproduces exactly the same 32 bytes. -/
theorem digest_base64_roundtrip (digest : List Nat)
    ( _hlen : digest.length = 32) (hbytes : ∀ x ∈ digest, x < 256) :
    base64Decode (base64Encode digest) = digest :=
  base64Decode_base64Encode digest hbytes

/-- Concrete evaluation of the digest round trip at the all-zero digest. -/
theorem digest_base64_roundtrip_witness :
    base64Decode (base64Encode (List.replicate 32 0)) =
      List.replicate 32 0 :=
  digest_base64_roundtrip (List.replicate 32 0) (by decide) (by decide)

/-- **C4**: the skip-prefix parameter excludes exactly the caller-specified
number of leading bytes: for an input of real length `L` and skip `s ≤ L`,
the real region of the committed input bytes is the bytes at positions `s`
through `L - 1` (the rest of the capacity-sized region is zero padding),
and the digest output is the reference hash of exactly those bytes. -/
theorem sha2_digest_skip_prefix (sha256 : List Nat → List Nat)
    (max_bytes_size : Nat) (input : List Nat) (skip L : Nat)
    (hL : input.length = L) (hskip : skip ≤ L) (hcap : L ≤ max_bytes_size) :
    (sha2DigestSkip sha256 max_bytes_size input skip).input_len = L ∧
    (sha2DigestSkip sha256 max_bytes_size input skip).input_bytes.length =
      max_bytes_size ∧
    (sha2DigestSkip sha256 max_bytes_size input skip).input_bytes.take
        (L - skip) = (input.take L).drop skip ∧
    (∀ x ∈ (sha2DigestSkip sha256 max_bytes_size input skip).input_bytes.drop
        (L - skip), x = 0) ∧
    (sha2DigestSkip sha256 max_bytes_size input skip).output_bytes =
      sha256 ((input.take L).drop skip) := by
  subst hL
  have hdroplen : (input.drop skip).length = input.length - skip :=
    List.length_drop skip input
  refine ⟨rfl, ?_, ?_, ?_, ?_⟩
  · simp only [sha2DigestSkip, List.length_append, List.length_replicate,
      hdroplen]
    omega
  · rw [List.take_length]
    simp only [sha2DigestSkip]
    rw [← hdroplen, List.take_left]
  · intro x hx
    simp only [sha2DigestSkip] at hx
    rw [← hdroplen, List.drop_left] at hx
    exact List.eq_of_mem_replicate hx
  · rw [List.take_length]
    rfl

/-- Concrete evaluation of the skip-prefix region: input `[10, 20, 30]`,
capacity 4, skip 1. -/
theorem sha2_digest_skip_prefix_witness :
    (sha2DigestSkip (fun l => l) 4 [10, 20, 30] 1).input_len = 3 ∧
    (sha2DigestSkip (fun l => l) 4 [10, 20, 30] 1).input_bytes.length = 4 ∧
    (sha2DigestSkip (fun l => l) 4 [10, 20, 30] 1).input_bytes.take (3 - 1) =
      ([10, 20, 30].take 3).drop 1 ∧
    (∀ x ∈ (sha2DigestSkip (fun l => l) 4 [10, 20, 30] 1).input_bytes.drop
        (3 - 1), x = 0) ∧
    (sha2DigestSkip (fun l => l) 4 [10, 20, 30] 1).output_bytes =
      (fun l => l) (([10, 20, 30].take 3).drop 1) :=
  sha2_digest_skip_prefix (fun l => l) 4 [10, 20, 30] 1 3 rfl (by decide)
    (by decide)

/-- **C9**: the base64 encoding of the 32-byte digest writes 44 bytes, while
the `debug_assert_eq!` of `match_hash_and_base64` expects
`32 * 4 / 3 + 4 = 46` bytes; the assertion fails on every input. -/
theorem encoded_digest_length_mismatch :
    (base64Encode (List.replicate 32 0)).length = 44 ∧
    (List.replicate 32 (0 : Nat)).length * 4 / 3 + 4 = 46 ∧
    ¬ (base64Encode (List.replicate 32 0)).length =
        (List.replicate 32 (0 : Nat)).length * 4 / 3 + 4 := by
  decide

/-- **C10**: `without_witnesses` preserves the input length, zeroes every
input byte, and zeroes the blinding value. -/
theorem without_witnesses_zero_shape {F : Type} [CommRing F]
    (c : Sha2Circuit F) :
    (withoutWitnesses c).input.length = c.input.length ∧
    (∀ b ∈ (withoutWitnesses c).input, b = 0) ∧
    (withoutWitnesses c).sign_rand = 0 := by
  refine ⟨by simp [withoutWitnesses], ?_, rfl⟩
  intro b hb
  simp only [withoutWitnesses] at hb
  exact List.eq_of_mem_replicate hb

/-- **C5**: for every input within the capacity of `DummySha256Circuit`
(capacity 128, skip-prefix 0), the public inputs computed out-of-circuit by
`instances` — commitment to the zero-padded input, then commitment to the
digest, both under the blinding value — coincide value for value and in
order with the two cells `synthesize` constrains to the instance column,
and `num_instance` declares `[2]`. -/
theorem sha2_instances_match_synthesize {F : Type}
    (sha256 : List Nat → List Nat) (commit : F → List Nat → F)
    (input : List Nat) (sign_rand : F)
    (hcap : input.length ≤ dummyMaxBytesSize) :
    instancesFn sha256 commit dummyMaxBytesSize input sign_rand =
      some [sha2SynthPublicCells sha256 commit dummyMaxBytesSize
        dummySkipPrefix input sign_rand] ∧
    numInstance = [2] := by
  refine ⟨?_, rfl⟩
  simp only [instancesFn, sha2SynthPublicCells, sha2DigestSkip,
    dummySkipPrefix, List.drop_zero, Nat.sub_zero, if_pos hcap]
  rw [revealMask_eq]
  have htake :
      (input ++ List.replicate (dummyMaxBytesSize - input.length) 0).take
        input.length = input := List.take_left input _
  have hlen :
      (input ++ List.replicate (dummyMaxBytesSize - input.length) 0).length
        - input.length = dummyMaxBytesSize - input.length := by
    simp
  rw [htake, hlen]

/-- Concrete evaluation of the instance/synthesize agreement at a one-byte
input. -/
theorem sha2_instances_match_synthesize_witness :
    instancesFn (fun l => [l.length]) (fun r l => r + Int.ofNat l.sum)
        dummyMaxBytesSize [7] 5 =
      some [sha2SynthPublicCells (fun l => [l.length])
        (fun r l => r + Int.ofNat l.sum) dummyMaxBytesSize dummySkipPrefix
        [7] 5] ∧
    numInstance = [2] :=
  sha2_instances_match_synthesize (fun l => [l.length])
    (fun r l => r + Int.ofNat l.sum) [7] 5 (by decide)

/-- **C6**: when the input exceeds the fixed capacity, computing the public
instances aborts (the `usize` subtraction for the padding size panics)
rather than silently truncating. -/
theorem instances_overflow_aborts {F : Type} (sha256 : List Nat → List Nat)
    (commit : F → List Nat → F) (input : List Nat) (sign_rand : F)
    (hover : dummyMaxBytesSize < input.length) :
    instancesFn sha256 commit dummyMaxBytesSize input sign_rand = none := by
  simp only [instancesFn]
  rw [if_neg]
  omega

/-- Concrete evaluation of the overflow abort at a 129-byte input against
capacity 128. -/
theorem instances_overflow_aborts_witness :
    instancesFn (fun _ => []) (fun _ _ => (0 : Int)) dummyMaxBytesSize
      (List.replicate 129 0) 0 = none :=
  instances_overflow_aborts (fun _ => []) (fun _ _ => (0 : Int))
    (List.replicate 129 0) 0 (by simp [dummyMaxBytesSize])

theorem except_bind_ok {α β ε : Type} (a : α) (f : α → Except ε β) :
    (Except.ok a >>= f) = f a := rfl

theorem except_bind_error {α β ε : Type} (e : ε) (f : α → Except ε β) :
    ((Except.error e : Except ε α) >>= f) = (Except.error e : Except ε β) :=
  rfl

/-- **C7**: `load` sequences the automaton-table load, the range-check-table
load and the base64-alphabet load, returning `Ok` exactly when all three
succeed; a failure propagates as the first error, and later loads are only
performed after the earlier ones succeeded (an early failure makes the
result independent of the later loaders). -/
theorem load_sequences_three_tables {σ ε : Type}
    (l1 l2 l3 : σ → Except ε σ) (s : σ) :
    ((∃ sf, loadConfig l1 l2 l3 s = Except.ok sf) ↔
      ∃ s1 s2 s3, l1 s = Except.ok s1 ∧ l2 s1 = Except.ok s2 ∧
        l3 s2 = Except.ok s3) ∧
    (∀ e, l1 s = Except.error e → ∀ l2' l3',
      loadConfig l1 l2' l3' s = Except.error e) ∧
    (∀ s1 e, l1 s = Except.ok s1 → l2 s1 = Except.error e → ∀ l3',
      loadConfig l1 l2 l3' s = Except.error e) ∧
    (∀ s1 s2, l1 s = Except.ok s1 → l2 s1 = Except.ok s2 →
      loadConfig l1 l2 l3 s = l3 s2) := by
  refine ⟨?_, ?_, ?_, ?_⟩
  · cases h1 : l1 s with
    | error e => simp [loadConfig, h1, except_bind_ok, except_bind_error]
    | ok s1 =>
        cases h2 : l2 s1 with
        | error e => simp [loadConfig, h1, h2, except_bind_ok, except_bind_error]
        | ok s2 =>
            cases h3 : l3 s2 with
            | error e => simp [loadConfig, h1, h2, h3, except_bind_ok, except_bind_error]
            | ok s3 => simp [loadConfig, h1, h2, h3, except_bind_ok, except_bind_error]
  · intro e h1 l2' l3'
    simp [loadConfig, h1, except_bind_ok, except_bind_error]
  · intro s1 e h1 h2 l3'
    simp [loadConfig, h1, h2, except_bind_ok, except_bind_error]
  · intro s1 s2 h1 h2
    simp [loadConfig, h1, h2, except_bind_ok, except_bind_error]

/-- Concrete evaluation of the load sequencing with three succeeding
loaders over a counter state. -/
theorem load_sequences_three_tables_witness :
    ((∃ sf, loadConfig (fun n : Nat => (Except.ok (n + 1) : Except Unit Nat))
        (fun n => Except.ok (n + 2)) (fun n => Except.ok (n + 3)) 0 =
          Except.ok sf) ↔
      ∃ s1 s2 s3,
        (fun n : Nat => (Except.ok (n + 1) : Except Unit Nat)) 0 =
          Except.ok s1 ∧
        (fun n : Nat => (Except.ok (n + 2) : Except Unit Nat)) s1 =
          Except.ok s2 ∧
        (fun n : Nat => (Except.ok (n + 3) : Except Unit Nat)) s2 =
          Except.ok s3) ∧
    (∀ e, (fun n : Nat => (Except.ok (n + 1) : Except Unit Nat)) 0 =
        Except.error e → ∀ l2' l3',
      loadConfig (fun n : Nat => (Except.ok (n + 1) : Except Unit Nat))
        l2' l3' 0 = Except.error e) ∧
    (∀ s1 e, (fun n : Nat => (Except.ok (n + 1) : Except Unit Nat)) 0 =
        Except.ok s1 →
      (fun n : Nat => (Except.ok (n + 2) : Except Unit Nat)) s1 =
        Except.error e → ∀ l3',
      loadConfig (fun n : Nat => (Except.ok (n + 1) : Except Unit Nat))
        (fun n => Except.ok (n + 2)) l3' 0 = Except.error e) ∧
    (∀ s1 s2, (fun n : Nat => (Except.ok (n + 1) : Except Unit Nat)) 0 =
        Except.ok s1 →
      (fun n : Nat => (Except.ok (n + 2) : Except Unit Nat)) s1 =
        Except.ok s2 →
      loadConfig (fun n : Nat => (Except.ok (n + 1) : Except Unit Nat))
        (fun n => Except.ok (n + 2)) (fun n => Except.ok (n + 3)) 0 =
      (fun n : Nat => (Except.ok (n + 3) : Except Unit Nat)) s2) :=
  load_sequences_three_tables
    (fun n : Nat => (Except.ok (n + 1) : Except Unit Nat))
    (fun n => Except.ok (n + 2)) (fun n => Except.ok (n + 3)) 0

/-- **C8** counterexample: with one pattern specification but an empty list
of positions arrays, `match_hash_and_base64`'s extraction loop returns no
extracted substring at all — not one per pattern specification. -/
theorem substrs_one_per_def_counterexample :
    ¬ (assignedSubstrs (fun (d : Nat) (p : List Nat) => (d, p)) [5]
        []).length = 1 := by
  decide

/-- **C8** (amended): when the positions-array list has as many entries as
the pattern-specification list, `match_hash_and_base64` returns exactly one
extracted substring per pattern specification, in the same order (in
general the zip produces one result per paired entry). -/
theorem substrs_one_per_def {D R : Type} (matchSubstr : D → List Nat → R)
    (substr_defs : List D) (substr_positions_array : List (List Nat))
    (harity : substr_positions_array.length = substr_defs.length) :
    (assignedSubstrs matchSubstr substr_defs substr_positions_array).length =
      substr_defs.length ∧
    ∀ i (h1 : i < (assignedSubstrs matchSubstr substr_defs
          substr_positions_array).length)
      (h2 : i < substr_defs.length) (h3 : i < substr_positions_array.length),
      (assignedSubstrs matchSubstr substr_defs substr_positions_array).get
          ⟨i, h1⟩ =
        matchSubstr (substr_defs.get ⟨i, h2⟩)
          (substr_positions_array.get ⟨i, h3⟩) := by
  constructor
  · simp [assignedSubstrs, List.length_zip, harity]
  · intro i h1 h2 h3
    simp [assignedSubstrs, List.get_eq_getElem, List.getElem_map,
      List.getElem_zip]

/-- Concrete evaluation of the one-result-per-specification property at two
pattern specifications. -/
theorem substrs_one_per_def_witness :
    (assignedSubstrs (fun (d : Nat) (p : List Nat) => (d, p)) [5, 7]
      [[1], [2]]).length = 2 :=
  (substrs_one_per_def (fun (d : Nat) (p : List Nat) => (d, p)) [5, 7]
    [[1], [2]] rfl).1

end ZkEmail
